import Mathlib

/-!
Verification development for the metafs filer (src/metafs/metafs.py).

The Python module is shallowly embedded as pure Lean functions over an
explicit store state.  Modelling conventions, each noted again at the
definition it concerns:

* Paths are modelled as component lists (`FPath`): an absolute path
  `/a/b` is `⟨true, ["a", "b"]⟩`.  This is the normal form of a POSIX
  path with no trailing separator, no `.`/`..` segments and no repeated
  separators; on such paths `os.path.dirname` is `List.dropLast`,
  `os.path.basename` is the last component and `os.path.join dir name`
  appends one component.
* The embedding fixes `sys.platform` to a case-sensitive platform
  (for example `"linux"`), so the `win32`/`darwin` lower-casing branches
  of `update` (metafs.py lines 48-49, 55-56, 59-60) are not taken, and
  `str.decode("utf-8")` is the identity on the modelled strings.
* The filesystem is an immutable in-memory tree, so the `IOError`
  branch of `_add_file_entry` (a read failing mid-hash) cannot arise.
* The MD5 hex digest of `_get_file_hash` is abstracted as the content
  byte sequence itself: an injective stand-in, faithful to the spec's
  treatment of the digest as a collision-free content identity.
* SQLite behaviour is modelled table by table from the schema that
  `SQLiteFiler.initialize` creates: a `UNIQUE` column makes
  `INSERT OR IGNORE` an insert-if-absent; `REPLACE INTO` deletes the
  conflicting rows and appends a fresh row whose `AUTOINCREMENT` id is
  the never-before-used next value; an `INSERT OR IGNORE` into a table
  with no unique constraint is a plain append; `UPDATE ... WHERE`
  mutates exactly the matching rows in place.  `fetchone` returns the
  first matching row, `fetchall` all of them.
* The state carries ghost instrumentation counters (`hashCalls`,
  `detectCalls`, `parseCalls`) counting invocations of `_get_file_hash`,
  `magic.from_file` and `peparser.PEHeader(...).parse()`; they are not
  part of the SQLite store.
* `magic` and `peparser` are external collaborators and are supplied as
  configuration functions on the file content; a `none` result models
  the exception (`MagicException` / `PEFormatError`) branch.
-/

/-- A filesystem path in normal form: absolute flag plus component list. -/
structure FPath where
  isAbs : Bool
  comps : List String
deriving Repr, DecidableEq

/-- The os.path.join of a directory path with one final name component. -/
def FPath.child (p : FPath) (nm : String) : FPath :=
  ⟨p.isAbs, p.comps ++ [nm]⟩

/-- The os.path.dirname of a normal-form path: drop the last component. -/
def FPath.dirname (p : FPath) : FPath :=
  ⟨p.isAbs, p.comps.dropLast⟩

/-- The os.path.basename of a normal-form path: its last component. -/
def FPath.basename (p : FPath) : String :=
  p.comps.getLastD ""

/-- An immutable filesystem tree: regular files carry their content bytes
and stat times, directories carry stat times and named entries. -/
inductive FSNode where
  | file (content : List Nat) (mtime atime ctime : Nat)
  | dir (mtime atime ctime : Nat) (entries : List (String × FSNode))

/-- Look up a name among a directory's entries (the first match). -/
def lookupEntry (es : List (String × FSNode)) (nm : String) : Option FSNode :=
  (es.find? (fun e => e.1 = nm)).map (·.2)

/-- Resolve a component list against a tree, as the OS resolves a path. -/
def fsLookup : List String → FSNode → Option FSNode
  | [], n => some n
  | c :: rest, .dir _ _ _ es =>
    match lookupEntry es c with
    | some n => fsLookup rest n
    | none => none
  | _ :: _, .file _ _ _ _ => none

/-- The stat times (mtime, atime, ctime) of a node. -/
def statTimes : FSNode → Nat × Nat × Nat
  | .file _ m a c => (m, a, c)
  | .dir m a c _ => (m, a, c)

/-- The names of the regular files among a directory's entries, in order:
the `filenames` member of an `os.walk` tuple. -/
def fileNamesOf (es : List (String × FSNode)) : List String :=
  es.filterMap (fun e => match e.2 with | .file _ _ _ _ => some e.1 | _ => none)

mutual
/-- The `(dirpath, filenames)` pairs yielded by `os.walk` rooted at the
given node, in top-down order (each directory before its descendants,
children in entry-list order).  The `dirnames` member is omitted: the
Python loop never reads it. -/
def walkNode (p : FPath) (n : FSNode) : List (FPath × List String) :=
  match n with
  | .file _ _ _ _ => []
  | .dir _ _ _ es => (p, fileNamesOf es) :: walkEntries p es

/-- The walk tuples contributed by a list of directory entries. -/
def walkEntries (p : FPath) (es : List (String × FSNode)) : List (FPath × List String) :=
  match es with
  | [] => []
  | (nm, c) :: rest =>
    (match c with
     | .dir _ _ _ _ => walkNode (p.child nm) c
     | .file _ _ _ _ => []) ++ walkEntries p rest
end

/-- A row of the `paths` table: path_id is the AUTOINCREMENT primary key,
path is UNIQUE. -/
structure PathRow where
  path_id : Nat
  path : FPath
  mtime : Nat
  atime : Nat
  ctime : Nat
deriving Repr, DecidableEq

/-- A row of the `files` table, primary key (file_id, path_id). -/
structure FileRow where
  file_id : Nat
  path_id : Nat
  filename : String
  magic_id : Nat
  size : Nat
  mtime : Nat
  atime : Nat
  ctime : Nat
deriving Repr, DecidableEq

/-- One section record handed over by the PE header extractor. -/
structure SectionRec where
  name : String
  size : Nat
  v_size : Nat
  entropy : Int
deriving Repr, DecidableEq

/-- The SQLite store of `SQLiteFiler` plus ghost instrumentation.  Each
`next…Id` field models the AUTOINCREMENT sequence of its table (SQLite
starts at 1 and never reuses a value). -/
structure State where
  hashes : List (Nat × List Nat)
  nextFileId : Nat
  paths : List PathRow
  nextPathId : Nat
  files : List FileRow
  magics : List (Nat × String)
  nextMagicId : Nat
  peheaders : List (Nat × Int × String × Int)
  dlls : List (Nat × String)
  nextDllId : Nat
  functions : List (Nat × String × Nat)
  nextFunctionId : Nat
  fileImportDlls : List (Nat × Nat)
  fileExportDlls : List (Nat × Nat)
  fileImportFunctions : List (Nat × Nat)
  fileExportFunctions : List (Nat × Nat)
  sections : List (Nat × SectionRec)
  versionInfoFields : List (Nat × String)
  nextVfId : Nat
  versionInfoValues : List (Nat × String)
  nextVvId : Nat
  fileVersionInfo : List (Nat × Nat × Nat)
  anomalies : List (Nat × String)
  hashCalls : Nat
  detectCalls : Nat
  parseCalls : Nat
deriving Repr, DecidableEq

/-- The store right after `SQLiteFiler.initialize`: all tables empty,
every AUTOINCREMENT sequence at 1. -/
def initState : State :=
  ⟨[], 1, [], 1, [], [], 1, [], [], 1, [], 1, [], [], [], [], [], [], 1, [], 1, [], [], 0, 0, 0⟩

/-- One export/import entry of the PE parser: optional display name plus
ordinal. -/
structure PEFunctionRec where
  name : Option String
  ordinal : Nat
deriving Repr, DecidableEq

/-- The `exports` record of the PE parser. -/
structure PEExportsRec where
  dll_name : Option String
  functions : List PEFunctionRec
deriving Repr, DecidableEq

/-- The structured record returned by `peparser.PEHeader(path).parse()`.
Dictionary-valued members are association lists in iteration order; an
empty list models an absent or empty (falsy) member. -/
structure PEHeadersRec where
  exports : Option PEExportsRec
  imports : List (String × List PEFunctionRec)
  version_info : List (String × Option String)
  sections : List SectionRec
  anomalies : List String
  compile_time : Option Int
  petype : Option String
  subsystem : Option Int
deriving Repr, DecidableEq

/-- Filer configuration: `max_parse_size` plus the external collaborators.
`magicAvail` is whether constructing `magic.Magic` succeeded; `magicOf`
is `magic.from_file` on the file's content (`none` = `MagicException`);
`peParse` is the PE header extractor (`none` = `PEFormatError`). -/
structure Config where
  maxParseSize : Nat
  magicAvail : Bool
  magicOf : List Nat → Option String
  peParse : List Nat → Option PEHeadersRec

/-- The MD5 hex digest of `_get_file_hash`, abstracted as the content
itself (injective, collision-free content identity). -/
def fileHash (content : List Nat) : List Nat :=
  content

/-- The exceptions the embedded code can raise while running. -/
inductive PyErr where
  | metaFSError
  | typeError
  | osError
deriving Repr, DecidableEq

/-- The outcome of a store operation: normal return, or a propagating
exception together with the store state already committed when it was
raised. -/
inductive Res where
  | ok (s : State)
  | err (e : PyErr) (s : State)
deriving Repr, DecidableEq

/-- The store state carried by an outcome (committed writes survive an
exception: every SQLite write in the source commits immediately). -/
def stateOf : Res → State
  | .ok s => s
  | .err _ s => s

/-- SELECT file_id FROM hashes WHERE hash=? (first row, if any). -/
def selectFileId (s : State) (h : List Nat) : Option Nat :=
  (s.hashes.find? (fun r => r.2 = h)).map (·.1)

/-- SQLiteFiler._get_file_id: select; if absent, INSERT OR IGNORE the
hash (UNIQUE column, so an insert) and re-select. -/
def getFileId (s : State) (h : List Nat) : Nat × State :=
  match selectFileId s h with
  | some i => (i, s)
  | none =>
    let s1 : State :=
      { s with hashes := s.hashes ++ [(s.nextFileId, h)], nextFileId := s.nextFileId + 1 }
    ((selectFileId s1 h).getD 0, s1)

/-- SELECT path_id FROM paths WHERE path=? (first row, if any);
the body of SQLiteFiler._get_path_id before its `result[0]`. -/
def selectPathId (s : State) (p : FPath) : Option Nat :=
  (s.paths.find? (fun r => r.path = p)).map (·.path_id)

/-- SQLiteFiler._get_dll_id: select by name; insert-if-absent; re-select. -/
def getDllId (s : State) (nm : String) : Nat × State :=
  match (s.dlls.find? (fun r => r.2 = nm)).map (·.1) with
  | some i => (i, s)
  | none =>
    let s1 : State :=
      { s with dlls := s.dlls ++ [(s.nextDllId, nm)], nextDllId := s.nextDllId + 1 }
    (((s1.dlls.find? (fun r => r.2 = nm)).map (·.1)).getD 0, s1)

/-- SQLiteFiler._get_function_id: the SELECT filters on `name` alone;
the dll_id is only written into a newly inserted row, never consulted
on lookup. -/
def getFunctionId (s : State) (nm : String) (dllId : Nat) : Nat × State :=
  match (s.functions.find? (fun r => r.2.1 = nm)).map (·.1) with
  | some i => (i, s)
  | none =>
    let s1 : State :=
      { s with functions := s.functions ++ [(s.nextFunctionId, nm, dllId)],
               nextFunctionId := s.nextFunctionId + 1 }
    (((s1.functions.find? (fun r => r.2.1 = nm)).map (·.1)).getD 0, s1)

/-- SQLiteFiler._get_magic_id: select by magic text; insert-if-absent. -/
def getMagicId (s : State) (ft : String) : Nat × State :=
  match (s.magics.find? (fun r => r.2 = ft)).map (·.1) with
  | some i => (i, s)
  | none =>
    let s1 : State :=
      { s with magics := s.magics ++ [(s.nextMagicId, ft)], nextMagicId := s.nextMagicId + 1 }
    (((s1.magics.find? (fun r => r.2 = ft)).map (·.1)).getD 0, s1)

/-- SQLiteFiler._get_version_info_field_id: select by text; insert-if-absent. -/
def getVersionInfoFieldId (s : State) (fld : String) : Nat × State :=
  match (s.versionInfoFields.find? (fun r => r.2 = fld)).map (·.1) with
  | some i => (i, s)
  | none =>
    let s1 : State :=
      { s with versionInfoFields := s.versionInfoFields ++ [(s.nextVfId, fld)],
               nextVfId := s.nextVfId + 1 }
    (((s1.versionInfoFields.find? (fun r => r.2 = fld)).map (·.1)).getD 0, s1)

/-- SQLiteFiler._get_version_info_value_id: select by text; insert-if-absent. -/
def getVersionInfoValueId (s : State) (v : String) : Nat × State :=
  match (s.versionInfoValues.find? (fun r => r.2 = v)).map (·.1) with
  | some i => (i, s)
  | none =>
    let s1 : State :=
      { s with versionInfoValues := s.versionInfoValues ++ [(s.nextVvId, v)],
               nextVvId := s.nextVvId + 1 }
    (((s1.versionInfoValues.find? (fun r => r.2 = v)).map (·.1)).getD 0, s1)

/-- SQLiteFiler._update_dir_entry: REPLACE INTO paths — delete the rows
conflicting on the UNIQUE path, insert a fresh row whose AUTOINCREMENT
path_id is the next never-used value. -/
def updateDirEntry (s : State) (p : FPath) (m a c : Nat) : State :=
  { s with paths := s.paths.filter (fun r => ¬(r.path = p)) ++ [⟨s.nextPathId, p, m, a, c⟩],
           nextPathId := s.nextPathId + 1 }

/-- SQLiteFiler._update_file_entry: resolve file_id (get-or-create) and
path_id (select only; `result[0]` on an empty result raises TypeError);
with a type label, REPLACE the row keyed (file_id, path_id); without
one, UPDATE the timestamps of the rows matching that key in place. -/
def updateFileEntry (s : State) (h : List Nat) (p : FPath) (fn : String)
    (fileType : Option String) (size m a c : Nat) : Res :=
  let fs1 := getFileId s h
  match selectPathId fs1.2 p with
  | none => .err .typeError fs1.2
  | some pid =>
    match fileType with
    | some ft =>
      let ms1 := getMagicId fs1.2 ft
      .ok { ms1.2 with
        files := ms1.2.files.filter (fun r => ¬(r.file_id = fs1.1 ∧ r.path_id = pid)) ++
          [⟨fs1.1, pid, fn, ms1.1, size, m, a, c⟩] }
    | none =>
      .ok { fs1.2 with
        files := fs1.2.files.map (fun r =>
          if r.file_id = fs1.1 ∧ r.path_id = pid then
            { r with mtime := m, atime := a, ctime := c }
          else r) }

/-- SQLiteFiler._check_meta_entry: the number of hashes rows matching the
digest (`len(results)`, used for its truthiness by the caller). -/
def checkMetaEntry (s : State) (h : List Nat) : Nat :=
  (s.hashes.filter (fun r => r.2 = h)).length

/-- The `"0x%0.4x"` fallback name derived from an ordinal: lowercase hex,
zero-padded to at least four digits. -/
def ordinalTag (n : Nat) : String :=
  let ds := Nat.toDigits 16 n
  "0x" ++ String.mk (List.replicate (4 - ds.length) '0' ++ ds)

/-- The Python `function.get("name") or "0x%0.4x" % function.get("ordinal")`:
a missing or empty (falsy) name falls back to the ordinal tag. -/
def functionDisplayName (f : PEFunctionRec) : String :=
  match f.name with
  | some nm => if nm = "" then ordinalTag f.ordinal else nm
  | none => ordinalTag f.ordinal

/-- Resolve a list of export/import function entries against one owning
dll, in order, collecting `(file_id, function_id)` pairs. -/
def resolveFunctions (s : State) (fid : Nat) (dllId : Nat) :
    List PEFunctionRec → State × List (Nat × Nat)
  | [] => (s, [])
  | f :: rest =>
    let r1 := getFunctionId s (functionDisplayName f) dllId
    let r2 := resolveFunctions r1.2 fid dllId rest
    (r2.1, (fid, r1.1) :: r2.2)

/-- SQLiteFiler._insert_pe_exports: resolve the dll and every function,
then INSERT OR IGNORE into file_export_dlls and file_export_functions —
tables with no unique constraint, so the inserts are plain appends. -/
def insertPeExports (s : State) (fid : Nat) (e : Option PEExportsRec) : State :=
  match e with
  | none => s
  | some ex =>
    let ds1 := getDllId s (ex.dll_name.getD "")
    let fs1 := resolveFunctions ds1.2 fid ds1.1 ex.functions
    { fs1.1 with fileExportDlls := fs1.1.fileExportDlls ++ [(fid, ds1.1)],
                 fileExportFunctions := fs1.1.fileExportFunctions ++ fs1.2 }

/-- Resolve the import dictionary dll by dll, collecting the
`(file_id, dll_id)` and `(file_id, function_id)` pairs in order. -/
def resolveImports (s : State) (fid : Nat) :
    List (String × List PEFunctionRec) → State × List (Nat × Nat) × List (Nat × Nat)
  | [] => (s, [], [])
  | (dllName, fns) :: rest =>
    let ds1 := getDllId s dllName
    let fs1 := resolveFunctions ds1.2 fid ds1.1 fns
    let r := resolveImports fs1.1 fid rest
    (r.1, (fid, ds1.1) :: r.2.1, fs1.2 ++ r.2.2)

/-- SQLiteFiler._insert_pe_imports: skipped when the dictionary is empty
(falsy); otherwise resolve everything and INSERT OR IGNORE the pairs into
file_import_dlls and file_import_functions — no unique constraint, so
plain appends. -/
def insertPeImports (s : State) (fid : Nat)
    (im : List (String × List PEFunctionRec)) : State :=
  match im with
  | [] => s
  | _ :: _ =>
    let r := resolveImports s fid im
    { r.1 with fileImportDlls := r.1.fileImportDlls ++ r.2.1,
               fileImportFunctions := r.1.fileImportFunctions ++ r.2.2 }

/-- Resolve version-info field/value pairs in order, collecting the
`(file_id, field_id, value_id)` triples. -/
def resolveVersionInfo (s : State) (fid : Nat) :
    List (String × Option String) → State × List (Nat × Nat × Nat)
  | [] => (s, [])
  | (fld, v) :: rest =>
    let f1 := getVersionInfoFieldId s fld
    let v1 := getVersionInfoValueId f1.2 (v.getD "")
    let r := resolveVersionInfo v1.2 fid rest
    (r.1, (fid, f1.1, v1.1) :: r.2)

/-- SQLiteFiler._insert_pe_version_info: skipped when empty; otherwise
resolve fields and values and append the triples (no unique constraint). -/
def insertPeVersionInfo (s : State) (fid : Nat)
    (vi : List (String × Option String)) : State :=
  match vi with
  | [] => s
  | _ :: _ =>
    let r := resolveVersionInfo s fid vi
    { r.1 with fileVersionInfo := r.1.fileVersionInfo ++ r.2 }

/-- SQLiteFiler._insert_pe_sections: skipped when empty; otherwise
INSERT OR IGNORE every section row — the sections table has no unique
constraint, so this appends one row per listed section, duplicates
included. -/
def insertPeSections (s : State) (fid : Nat) (secs : List SectionRec) : State :=
  match secs with
  | [] => s
  | _ :: _ =>
    { s with sections := s.sections ++ secs.map (fun sec => (fid, sec)) }

/-- SQLiteFiler._insert_pe_anomalies: skipped when empty; otherwise
append one row per anomaly string (no unique constraint). -/
def insertPeAnomalies (s : State) (fid : Nat) (ans : List String) : State :=
  match ans with
  | [] => s
  | _ :: _ =>
    { s with anomalies := s.anomalies ++ ans.map (fun a => (fid, a)) }

/-- The INSERT OR IGNORE of the peheaders summary row: the table has
PRIMARY KEY file_id and NOT NULL columns, so the row is skipped if the
file_id is already present or any of the record fields is NULL. -/
def insertPeHeaderRow (s : State) (fid : Nat)
    (ct : Option Int) (pt : Option String) (sub : Option Int) : State :=
  match ct, pt, sub with
  | some ct, some pt, some sub =>
    if (s.peheaders.find? (fun r => r.1 = fid)).isSome then s
    else { s with peheaders := s.peheaders ++ [(fid, ct, pt, sub)] }
  | _, _, _ => s

/-- SQLiteFiler._insert_pe_headers: decompose the parsed record into the
sub-tables, then INSERT OR IGNORE the summary row. -/
def insertPeHeaders (s : State) (fid : Nat) (ph : Option PEHeadersRec) : State :=
  match ph with
  | none => s
  | some h =>
    insertPeHeaderRow (insertPeAnomalies (insertPeSections (insertPeVersionInfo
      (insertPeImports (insertPeExports s fid h.exports) fid h.imports)
      fid h.version_info) fid h.sections) fid h.anomalies) fid
      h.compile_time h.petype h.subsystem

/-- SQLiteFiler._insert_meta_entry: get-or-create the content identity,
then ingest the structural headers (if any) under it. -/
def insertMetaEntry (s : State) (h : List Nat) (headers : Option PEHeadersRec) : State :=
  let fs1 := getFileId s h
  insertPeHeaders fs1.2 fs1.1 headers

/-- Filer._add_dir_entry: stat the directory (os.stat raises OSError on a
missing path) and upsert its paths row. -/
def addDirEntry (fs : FSNode) (s : State) (p : FPath) : Res :=
  match fsLookup p.comps fs with
  | some n => .ok (updateDirEntry s p (statTimes n).1 (statTimes n).2.1 (statTimes n).2.2)
  | none => .err .osError s

/-- The Python `str.startswith` test, computed on the character lists of
the two strings (semantically the same as `String.startsWith`, but
reducible by the kernel). -/
def strStartsWith (s pre : String) : Bool :=
  pre.data.isPrefixOf s.data

/-- Filer._add_file_entry: skip silently unless the joined path is a
regular file; skip files at or above max_parse_size; hash the content;
on first sight of the digest run type detection (falling back to
"Unknown" when magic is unavailable or raises), parse PE headers when
the label starts with "PE32" (a PEFormatError leaves the headers dict
empty), and ingest the metadata; finally upsert the occurrence row —
with the detected label on first sight, with `None` otherwise. -/
def addFileEntry (cfg : Config) (fs : FSNode) (s : State) (p : FPath) (fn : String) : Res :=
  match fsLookup (p.child fn).comps fs with
  | some (.file content m a c) =>
    if content.length < cfg.maxParseSize then
      let h := fileHash content
      let s1 : State := { s with hashCalls := s.hashCalls + 1 }
      if checkMetaEntry s1 h = 0 then
        let ds : String × State :=
          if cfg.magicAvail then
            let s2 : State := { s1 with detectCalls := s1.detectCalls + 1 }
            match cfg.magicOf content with
            | some t => (t, s2)
            | none => ("Unknown", s2)
          else ("Unknown", s1)
        let hs : Option PEHeadersRec × State :=
          if strStartsWith ds.1 "PE32" then
            (cfg.peParse content, { ds.2 with parseCalls := ds.2.parseCalls + 1 })
          else (none, ds.2)
        let s3 := insertMetaEntry hs.2 h hs.1
        updateFileEntry s3 h p fn (some ds.1) content.length m a c
      else
        updateFileEntry s1 h p fn none content.length m a c
    else .ok s
  | _ => .ok s

/-- One observation emitted by the walk: a directory upsert or a file
observation (dirpath, filename). -/
inductive Obs where
  | dir (p : FPath)
  | file (p : FPath) (fn : String)
deriving Repr, DecidableEq

/-- Dispatch one observation to the store. -/
def applyObs (cfg : Config) (fs : FSNode) (s : State) : Obs → Res
  | .dir p => addDirEntry fs s p
  | .file p fn => addFileEntry cfg fs s p fn

/-- Apply a list of observations in order, stopping at the first
propagating exception. -/
def runObs (cfg : Config) (fs : FSNode) (s : State) : List Obs → Res
  | [] => .ok s
  | o :: rest =>
    match applyObs cfg fs s o with
    | .ok s1 => runObs cfg fs s1 rest
    | .err e s1 => .err e s1

/-- The observations of the os.walk loop body: for each yielded tuple,
one directory observation, then one file observation per filename. -/
def walkObsList (fs : FSNode) (r : FPath) : List Obs :=
  match fsLookup r.comps fs with
  | some n => (walkNode r n).flatMap (fun pr => Obs.dir pr.1 :: pr.2.map (Obs.file pr.1))
  | none => []

/-- The full observation sequence of Filer.update: for a directory root
the code first replaces root by os.path.dirname(root), registers that
directory, then walks it; for a regular-file root it emits the single
file observation; anything else emits nothing.  (The walk reads only the
immutable filesystem, so precomputing the sequence is equivalent to the
interleaved Python loop.) -/
def updateObsList (fs : FSNode) (root : FPath) : List Obs :=
  match fsLookup root.comps fs with
  | some (.dir _ _ _ _) =>
    Obs.dir root.dirname :: walkObsList fs root.dirname
  | some (.file _ _ _ _) =>
    [Obs.file root.dirname root.basename]
  | none => []

/-- Filer.update: reject non-absolute roots with MetaFSError before any
filesystem access or store write, then apply the observation sequence. -/
def update (cfg : Config) (fs : FSNode) (s : State) (root : FPath) : Res :=
  if root.isAbs then runObs cfg fs s (updateObsList fs root)
  else .err .metaFSError s

/-- The path texts currently present in the paths table, in row order. -/
def pathKeys (s : State) : List FPath :=
  s.paths.map (·.path)

/-- The digests currently present in the hashes table, in row order. -/
def hashKeys (s : State) : List (List Nat) :=
  s.hashes.map (·.2)

/-- The (file_id, path_id) keys of the files table, in row order. -/
def fileKeys (s : State) : List (Nat × Nat) :=
  s.files.map (fun r => (r.file_id, r.path_id))

/-! Basic facts about the resolver primitives. -/

theorem getFileId_of_found (s : State) (h : List Nat) (i : Nat)
    (hf : selectFileId s h = some i) : getFileId s h = (i, s) := by
  unfold getFileId
  rw [hf]

theorem selectFileId_isSome_of_mem (s : State) (h : List Nat)
    (hm : h ∈ hashKeys s) : (selectFileId s h).isSome := by
  obtain ⟨r, hr, hrh⟩ := List.mem_map.1 hm
  unfold selectFileId
  rw [Option.isSome_map']
  exact List.find?_isSome.2 ⟨r, hr, by simp [hrh]⟩

theorem checkMetaEntry_ne_zero_of_mem (s : State) (h : List Nat)
    (hm : h ∈ hashKeys s) : checkMetaEntry s h ≠ 0 := by
  obtain ⟨r, hr, hrh⟩ := List.mem_map.1 hm
  unfold checkMetaEntry
  have hmem : r ∈ s.hashes.filter (fun r => r.2 = h) :=
    List.mem_filter.2 ⟨hr, by simp [hrh]⟩
  have hne := List.ne_nil_of_mem hmem
  simpa [List.length_eq_zero] using hne

theorem selectPathId_isSome_of_mem (s : State) (p : FPath)
    (hm : p ∈ pathKeys s) : (selectPathId s p).isSome := by
  obtain ⟨r, hr, hrp⟩ := List.mem_map.1 hm
  unfold selectPathId
  rw [Option.isSome_map']
  exact List.find?_isSome.2 ⟨r, hr, by simp [hrp]⟩

theorem mem_pathKeys_of_selectPathId_some (s : State) (p : FPath) (pid : Nat)
    (hf : selectPathId s p = some pid) : p ∈ pathKeys s := by
  unfold selectPathId at hf
  obtain ⟨r, hfind, _⟩ := Option.map_eq_some'.1 hf
  have hr := List.mem_of_find?_eq_some hfind
  have hp := List.find?_some hfind
  exact List.mem_map.2 ⟨r, hr, by simpa using hp⟩

theorem getFileId_mem_post (s : State) (h : List Nat) :
    h ∈ hashKeys (getFileId s h).2 := by
  unfold getFileId
  cases hf : selectFileId s h with
  | some i =>
    obtain ⟨r, hfind, _⟩ := Option.map_eq_some'.1 hf
    have hr := List.mem_of_find?_eq_some hfind
    have hp := List.find?_some hfind
    exact List.mem_map.2 ⟨r, hr, by simpa using hp⟩
  | none =>
    simp only [hashKeys, List.map_append]
    exact List.mem_append.2 (Or.inr (by simp))

theorem getFileId_mem_mono (s : State) (h x : List Nat)
    (hm : x ∈ hashKeys s) : x ∈ hashKeys (getFileId s h).2 := by
  unfold getFileId
  cases hf : selectFileId s h with
  | some i => exact hm
  | none =>
    simp only [hashKeys, List.map_append]
    exact List.mem_append.2 (Or.inl hm)

/-! Concrete fixtures used by the claim theorems and witnesses. -/

/-- A configuration with magic unavailable (labels fall back to
"Unknown") and a small parse-size bound. -/
def cfgNoMagic : Config := ⟨100, false, fun _ => none, fun _ => none⟩

/-- A filesystem holding /data/a.bin and /data/sub/b.bin with identical
content, plus an unrelated directory /other outside /data. -/
def fsData : FSNode :=
  .dir 0 0 0 [("data", .dir 1 1 1 [("a.bin", .file [7] 2 2 2),
    ("sub", .dir 3 3 3 [("b.bin", .file [7] 4 4 4)])]),
    ("other", .dir 5 5 5 [])]

/-- The absolute path /data. -/
def rootData : FPath := ⟨true, ["data"]⟩

/-- C3.  The claim fails on the code: the sub-tables carry no unique
constraint, so SQLite applies INSERT OR IGNORE as a plain insert and a
repeated pair yields a duplicate row.  A PE record listing the same
section twice puts two identical (content, section) rows in `sections`,
and importing the same-named symbol from two different libraries (which
resolves to one function_id) puts two identical (content, symbol) rows
in `file_import_functions`. -/
theorem insert_pe_subtables_duplicate_rows :
    (insertPeSections initState 1 [⟨".text", 10, 12, 3⟩, ⟨".text", 10, 12, 3⟩]).sections =
      [(1, ⟨".text", 10, 12, 3⟩), (1, ⟨".text", 10, 12, 3⟩)] ∧
    (insertPeImports initState 1
      [("a.dll", [⟨some "f", 1⟩]), ("b.dll", [⟨some "f", 2⟩])]).fileImportFunctions =
      [(1, 1), (1, 1)] := by
  decide

/-- C4 counterexample.  Resolving the symbol "f" once under library 1 and
once under library 2 yields the same identifier and a single functions
row, owned by the first library: symbol identity is not the composite of
(name, owning library). -/
theorem same_name_two_libraries_single_row :
    (getFunctionId (getFunctionId initState "f" 1).2 "f" 2).1 =
      (getFunctionId initState "f" 1).1 ∧
    (getFunctionId (getFunctionId initState "f" 1).2 "f" 2).2.functions = [(1, "f", 1)] := by
  decide

/-- C4 amended.  _get_function_id keys symbol identity on the display
name alone: re-resolving a name under any other library returns the
identifier of the existing row and leaves the store unchanged, so the
row keeps the library of the first resolution. -/
theorem getFunctionId_keyed_on_name_only (s : State) (nm : String) (d1 d2 : Nat) :
    (getFunctionId (getFunctionId s nm d1).2 nm d2).1 = (getFunctionId s nm d1).1 ∧
    (getFunctionId (getFunctionId s nm d1).2 nm d2).2 = (getFunctionId s nm d1).2 := by
  unfold getFunctionId
  cases hf : s.functions.find? (fun r => r.2.1 = nm) with
  | some pr => simp [hf]
  | none => simp [hf, List.find?_append]

/-- C8.  update raises MetaFSError on a non-absolute root, for every
filesystem and store state, returning the store untouched: the check
precedes every filesystem access and store write. -/
theorem update_relative_root_error (cfg : Config) (fs : FSNode) (s : State) (root : FPath)
    (h : root.isAbs = false) : update cfg fs s root = .err .metaFSError s := by
  simp [update, h]

/-- C8 witness at the concrete relative path `data`. -/
theorem update_relative_root_error_witness :
    update cfgNoMagic fsData initState ⟨false, ["data"]⟩ = .err .metaFSError initState :=
  update_relative_root_error cfgNoMagic fsData initState ⟨false, ["data"]⟩ rfl

/-! The REPLACE semantics of _update_dir_entry. -/

/-- C10.  Re-observing a directory whose path already has a row replaces
the row with one carrying the freshly generated AUTOINCREMENT path_id:
the path now resolves to the new identifier, the old identifier is gone
from the paths table (and, the sequence being strictly increasing, is
never generated again), while the files rows that were written against
the old identifier are left in place, dangling.  The hypotheses are the
store invariants of the schema: every path_id is below the sequence
value and path ids are distinct (primary key). -/
theorem updateDirEntry_fresh_path_id (s : State) (p : FPath) (m a c : Nat)
    (row : PathRow) (hrow : row ∈ s.paths) (hpath : row.path = p)
    (hbound : ∀ r ∈ s.paths, r.path_id < s.nextPathId)
    (hnodup : (s.paths.map (fun r => r.path_id)).Nodup) :
    selectPathId (updateDirEntry s p m a c) p = some s.nextPathId ∧
    row.path_id ∉ (updateDirEntry s p m a c).paths.map (fun r => r.path_id) ∧
    (updateDirEntry s p m a c).files = s.files ∧
    (updateDirEntry s p m a c).nextPathId = s.nextPathId + 1 := by
  refine ⟨?_, ?_, rfl, rfl⟩
  · unfold selectPathId updateDirEntry
    rw [List.find?_append]
    have hnone : (s.paths.filter (fun r => ¬(r.path = p))).find?
        (fun r => r.path = p) = none := by
      rw [List.find?_eq_none]
      intro x hx
      have := (List.mem_filter.1 hx).2
      simpa using this
    have hone : List.find? (fun r => decide (r.path = p))
        [(⟨s.nextPathId, p, m, a, c⟩ : PathRow)] = some ⟨s.nextPathId, p, m, a, c⟩ := by
      simp
    rw [hnone, Option.none_or, hone]
    rfl
  · intro hmem
    obtain ⟨r, hr, hid⟩ := List.mem_map.1 hmem
    rcases List.mem_append.1 hr with hL | hR
    · have hrs := (List.mem_filter.1 hL).1
      have hrp := (List.mem_filter.1 hL).2
      have heq : r = row := by
        have hinj := List.inj_on_of_nodup_map hnodup
        exact hinj hrs hrow hid
      rw [heq] at hrp
      simp [hpath] at hrp
    · have hrn : r = (⟨s.nextPathId, p, m, a, c⟩ : PathRow) := by simpa using hR
      rw [hrn] at hid
      simp at hid
      have := hbound row hrow
      omega

/-- A one-row store used by the C10 witness: path /data registered under
path_id 1, one files row referencing it, sequence value 2. -/
def sPathOne : State :=
  { initState with
      paths := [⟨1, rootData, 0, 0, 0⟩],
      nextPathId := 2,
      files := [⟨1, 1, "a.bin", 1, 1, 0, 0, 0⟩] }

/-- C10 witness at the one-row store. -/
theorem updateDirEntry_fresh_path_id_witness :
    selectPathId (updateDirEntry sPathOne rootData 9 9 9) rootData = some 2 ∧
    1 ∉ (updateDirEntry sPathOne rootData 9 9 9).paths.map (fun r => r.path_id) ∧
    (updateDirEntry sPathOne rootData 9 9 9).files = sPathOne.files ∧
    (updateDirEntry sPathOne rootData 9 9 9).nextPathId = 2 + 1 :=
  updateDirEntry_fresh_path_id sPathOne rootData 9 9 9 ⟨1, rootData, 0, 0, 0⟩
    (by decide) rfl (by decide) (by decide)

/-! Frame lemmas: which parts of the store each operation leaves alone. -/

/-- The store components untouched by the metadata ingestion operations:
hashes, paths, files and the hashing counter. -/
def peFrame (s : State) : List (Nat × List Nat) × List PathRow × List FileRow × Nat :=
  (s.hashes, s.paths, s.files, s.hashCalls)

theorem peFrame_getDllId (s : State) (nm : String) :
    peFrame (getDllId s nm).2 = peFrame s := by
  unfold getDllId
  split <;> rfl

theorem peFrame_getFunctionId (s : State) (nm : String) (d : Nat) :
    peFrame (getFunctionId s nm d).2 = peFrame s := by
  unfold getFunctionId
  split <;> rfl

theorem peFrame_getMagicId (s : State) (ft : String) :
    peFrame (getMagicId s ft).2 = peFrame s := by
  unfold getMagicId
  split <;> rfl

theorem peFrame_getVersionInfoFieldId (s : State) (fld : String) :
    peFrame (getVersionInfoFieldId s fld).2 = peFrame s := by
  unfold getVersionInfoFieldId
  split <;> rfl

theorem peFrame_getVersionInfoValueId (s : State) (v : String) :
    peFrame (getVersionInfoValueId s v).2 = peFrame s := by
  unfold getVersionInfoValueId
  split <;> rfl

theorem peFrame_resolveFunctions (s : State) (fid dllId : Nat) (l : List PEFunctionRec) :
    peFrame (resolveFunctions s fid dllId l).1 = peFrame s := by
  induction l generalizing s with
  | nil => rfl
  | cons f rest ih =>
    show peFrame (resolveFunctions (getFunctionId s (functionDisplayName f) dllId).2
      fid dllId rest).1 = peFrame s
    rw [ih, peFrame_getFunctionId]

theorem peFrame_insertPeExports (s : State) (fid : Nat) (e : Option PEExportsRec) :
    peFrame (insertPeExports s fid e) = peFrame s := by
  cases e with
  | none => rfl
  | some ex =>
    show peFrame (resolveFunctions (getDllId s (ex.dll_name.getD "")).2 fid
      (getDllId s (ex.dll_name.getD "")).1 ex.functions).1 = peFrame s
    rw [peFrame_resolveFunctions, peFrame_getDllId]

theorem peFrame_resolveImports (s : State) (fid : Nat)
    (l : List (String × List PEFunctionRec)) :
    peFrame (resolveImports s fid l).1 = peFrame s := by
  induction l generalizing s with
  | nil => rfl
  | cons e rest ih =>
    show peFrame (resolveImports (resolveFunctions (getDllId s e.1).2 fid
      (getDllId s e.1).1 e.2).1 fid rest).1 = peFrame s
    rw [ih, peFrame_resolveFunctions, peFrame_getDllId]

theorem peFrame_insertPeImports (s : State) (fid : Nat)
    (im : List (String × List PEFunctionRec)) :
    peFrame (insertPeImports s fid im) = peFrame s := by
  cases im with
  | nil => rfl
  | cons e rest =>
    show peFrame (resolveImports s fid (e :: rest)).1 = peFrame s
    rw [peFrame_resolveImports]

theorem peFrame_resolveVersionInfo (s : State) (fid : Nat)
    (l : List (String × Option String)) :
    peFrame (resolveVersionInfo s fid l).1 = peFrame s := by
  induction l generalizing s with
  | nil => rfl
  | cons e rest ih =>
    show peFrame (resolveVersionInfo (getVersionInfoValueId
      (getVersionInfoFieldId s e.1).2 (e.2.getD "")).2 fid rest).1 = peFrame s
    rw [ih, peFrame_getVersionInfoValueId, peFrame_getVersionInfoFieldId]

theorem peFrame_insertPeVersionInfo (s : State) (fid : Nat)
    (vi : List (String × Option String)) :
    peFrame (insertPeVersionInfo s fid vi) = peFrame s := by
  cases vi with
  | nil => rfl
  | cons e rest =>
    show peFrame (resolveVersionInfo s fid (e :: rest)).1 = peFrame s
    rw [peFrame_resolveVersionInfo]

theorem peFrame_insertPeSections (s : State) (fid : Nat) (secs : List SectionRec) :
    peFrame (insertPeSections s fid secs) = peFrame s := by
  cases secs <;> rfl

theorem peFrame_insertPeAnomalies (s : State) (fid : Nat) (ans : List String) :
    peFrame (insertPeAnomalies s fid ans) = peFrame s := by
  cases ans <;> rfl

theorem peFrame_insertPeHeaderRow (s : State) (fid : Nat)
    (ct : Option Int) (pt : Option String) (sub : Option Int) :
    peFrame (insertPeHeaderRow s fid ct pt sub) = peFrame s := by
  unfold insertPeHeaderRow
  split
  · split <;> rfl
  · rfl

theorem peFrame_insertPeHeaders (s : State) (fid : Nat) (ph : Option PEHeadersRec) :
    peFrame (insertPeHeaders s fid ph) = peFrame s := by
  cases ph with
  | none => rfl
  | some h =>
    show peFrame (insertPeHeaderRow (insertPeAnomalies (insertPeSections (insertPeVersionInfo
      (insertPeImports (insertPeExports s fid h.exports) fid h.imports)
      fid h.version_info) fid h.sections) fid h.anomalies) fid
      h.compile_time h.petype h.subsystem) = peFrame s
    rw [peFrame_insertPeHeaderRow, peFrame_insertPeAnomalies, peFrame_insertPeSections,
      peFrame_insertPeVersionInfo, peFrame_insertPeImports, peFrame_insertPeExports]

theorem getFileId_paths (s : State) (h : List Nat) : (getFileId s h).2.paths = s.paths := by
  unfold getFileId
  split <;> rfl

theorem getFileId_files (s : State) (h : List Nat) : (getFileId s h).2.files = s.files := by
  unfold getFileId
  split <;> rfl

theorem getFileId_hashCalls (s : State) (h : List Nat) :
    (getFileId s h).2.hashCalls = s.hashCalls := by
  unfold getFileId
  split <;> rfl

theorem insertMetaEntry_paths (s : State) (h : List Nat) (ph : Option PEHeadersRec) :
    (insertMetaEntry s h ph).paths = s.paths := by
  show (insertPeHeaders (getFileId s h).2 (getFileId s h).1 ph).paths = s.paths
  have := peFrame_insertPeHeaders (getFileId s h).2 (getFileId s h).1 ph
  have hp : (insertPeHeaders (getFileId s h).2 (getFileId s h).1 ph).paths =
      (getFileId s h).2.paths := congrArg (fun x => x.2.1) this
  rw [hp, getFileId_paths]

theorem insertMetaEntry_files (s : State) (h : List Nat) (ph : Option PEHeadersRec) :
    (insertMetaEntry s h ph).files = s.files := by
  show (insertPeHeaders (getFileId s h).2 (getFileId s h).1 ph).files = s.files
  have := peFrame_insertPeHeaders (getFileId s h).2 (getFileId s h).1 ph
  have hp : (insertPeHeaders (getFileId s h).2 (getFileId s h).1 ph).files =
      (getFileId s h).2.files := congrArg (fun x => x.2.2.1) this
  rw [hp, getFileId_files]

theorem insertMetaEntry_hashCalls (s : State) (h : List Nat) (ph : Option PEHeadersRec) :
    (insertMetaEntry s h ph).hashCalls = s.hashCalls := by
  show (insertPeHeaders (getFileId s h).2 (getFileId s h).1 ph).hashCalls = s.hashCalls
  have := peFrame_insertPeHeaders (getFileId s h).2 (getFileId s h).1 ph
  have hp : (insertPeHeaders (getFileId s h).2 (getFileId s h).1 ph).hashCalls =
      (getFileId s h).2.hashCalls := congrArg (fun x => x.2.2.2) this
  rw [hp, getFileId_hashCalls]

theorem insertMetaEntry_hash_mono (s : State) (h x : List Nat) (ph : Option PEHeadersRec)
    (hm : x ∈ hashKeys s) : x ∈ hashKeys (insertMetaEntry s h ph) := by
  show x ∈ hashKeys (insertPeHeaders (getFileId s h).2 (getFileId s h).1 ph)
  have := peFrame_insertPeHeaders (getFileId s h).2 (getFileId s h).1 ph
  have hh : (insertPeHeaders (getFileId s h).2 (getFileId s h).1 ph).hashes =
      (getFileId s h).2.hashes := congrArg (fun x => x.1) this
  unfold hashKeys
  rw [hh]
  exact getFileId_mem_mono s h x hm

theorem insertMetaEntry_mem_post (s : State) (h : List Nat) (ph : Option PEHeadersRec) :
    h ∈ hashKeys (insertMetaEntry s h ph) := by
  show h ∈ hashKeys (insertPeHeaders (getFileId s h).2 (getFileId s h).1 ph)
  have := peFrame_insertPeHeaders (getFileId s h).2 (getFileId s h).1 ph
  have hh : (insertPeHeaders (getFileId s h).2 (getFileId s h).1 ph).hashes =
      (getFileId s h).2.hashes := congrArg (fun x => x.1) this
  unfold hashKeys
  rw [hh]
  exact getFileId_mem_post s h

/-! Behaviour of _update_file_entry. -/

theorem selectPathId_congr (t u : State) (p : FPath) (h : t.paths = u.paths) :
    selectPathId t p = selectPathId u p := by
  unfold selectPathId
  rw [h]

theorem updateFileEntry_hashes (s : State) (h : List Nat) (p : FPath) (fn : String)
    (ft : Option String) (sz m a c : Nat) :
    (stateOf (updateFileEntry s h p fn ft sz m a c)).hashes = (getFileId s h).2.hashes := by
  simp only [updateFileEntry]
  split
  · rfl
  · split
    · rename_i ftv
      exact congrArg (fun x => x.1) (peFrame_getMagicId (getFileId s h).2 ftv)
    · rfl

theorem updateFileEntry_hashCalls (s : State) (h : List Nat) (p : FPath) (fn : String)
    (ft : Option String) (sz m a c : Nat) :
    (stateOf (updateFileEntry s h p fn ft sz m a c)).hashCalls = s.hashCalls := by
  simp only [updateFileEntry]
  split
  · exact getFileId_hashCalls s h
  · split
    · rename_i ftv
      exact (congrArg (fun x => x.2.2.2) (peFrame_getMagicId (getFileId s h).2 ftv)).trans
        (getFileId_hashCalls s h)
    · exact getFileId_hashCalls s h

theorem updateFileEntry_mem_post (s : State) (h : List Nat) (p : FPath) (fn : String)
    (ft : Option String) (sz m a c : Nat) :
    h ∈ hashKeys (stateOf (updateFileEntry s h p fn ft sz m a c)) := by
  show h ∈ (stateOf (updateFileEntry s h p fn ft sz m a c)).hashes.map (fun r => r.2)
  rw [updateFileEntry_hashes]
  exact getFileId_mem_post s h

theorem updateFileEntry_hash_mono (s : State) (h x : List Nat) (p : FPath) (fn : String)
    (ft : Option String) (sz m a c : Nat) (hm : x ∈ hashKeys s) :
    x ∈ hashKeys (stateOf (updateFileEntry s h p fn ft sz m a c)) := by
  show x ∈ (stateOf (updateFileEntry s h p fn ft sz m a c)).hashes.map (fun r => r.2)
  rw [updateFileEntry_hashes]
  exact getFileId_mem_mono s h x hm

theorem updateFileEntry_paths (s : State) (h : List Nat) (p : FPath) (fn : String)
    (ft : Option String) (sz m a c : Nat) :
    (stateOf (updateFileEntry s h p fn ft sz m a c)).paths = s.paths := by
  simp only [updateFileEntry]
  split
  · exact getFileId_paths s h
  · split
    · rename_i ftv
      exact (congrArg (fun x => x.2.1) (peFrame_getMagicId (getFileId s h).2 ftv)).trans
        (getFileId_paths s h)
    · exact getFileId_paths s h

theorem updateFileEntry_no_path (s : State) (h : List Nat) (p : FPath) (fn : String)
    (ft : Option String) (sz m a c : Nat)
    (hnone : selectPathId (getFileId s h).2 p = none) :
    updateFileEntry s h p fn ft sz m a c = .err .typeError (getFileId s h).2 := by
  simp only [updateFileEntry]
  rw [hnone]

theorem map_fileKey_timestamp_update (l : List FileRow) (fid pid : Nat) (m a c : Nat) :
    (l.map (fun r => if r.file_id = fid ∧ r.path_id = pid then
        { r with mtime := m, atime := a, ctime := c } else r)).map
      (fun r => (r.file_id, r.path_id)) = l.map (fun r => (r.file_id, r.path_id)) := by
  rw [List.map_map]
  refine List.map_congr_left ?_
  intro r _
  by_cases hr : r.file_id = fid ∧ r.path_id = pid
  · simp [hr]
  · simp [hr]

theorem updateFileEntry_none_seen (s : State) (h : List Nat) (p : FPath) (fn : String)
    (sz m a c : Nat) (hseen : h ∈ hashKeys s) :
    ∃ fl, stateOf (updateFileEntry s h p fn none sz m a c) = { s with files := fl } ∧
      fl.map (fun r => (r.file_id, r.path_id)) = s.files.map (fun r => (r.file_id, r.path_id)) := by
  have hsome := selectFileId_isSome_of_mem s h hseen
  obtain ⟨i, hi⟩ := Option.isSome_iff_exists.1 hsome
  simp only [updateFileEntry, getFileId_of_found s h i hi]
  cases hp : selectPathId s p with
  | none => exact ⟨s.files, rfl, rfl⟩
  | some pid =>
    exact ⟨_, rfl, map_fileKey_timestamp_update s.files i pid m a c⟩

theorem updateFileEntry_none_seen_ok (s : State) (h : List Nat) (p : FPath) (fn : String)
    (sz m a c : Nat) (hseen : h ∈ hashKeys s) (hp : p ∈ pathKeys s) :
    ∃ fl, updateFileEntry s h p fn none sz m a c = .ok { s with files := fl } ∧
      fl.map (fun r => (r.file_id, r.path_id)) = s.files.map (fun r => (r.file_id, r.path_id)) := by
  have hsome := selectFileId_isSome_of_mem s h hseen
  obtain ⟨i, hi⟩ := Option.isSome_iff_exists.1 hsome
  have hpsome := selectPathId_isSome_of_mem s p hp
  obtain ⟨pid, hpid⟩ := Option.isSome_iff_exists.1 hpsome
  simp only [updateFileEntry, getFileId_of_found s h i hi, hpid]
  exact ⟨_, rfl, map_fileKey_timestamp_update s.files i pid m a c⟩

/-! Behaviour of _add_file_entry. -/

theorem addFileEntry_seen_eq (cfg : Config) (fs : FSNode) (s : State) (p : FPath) (fn : String)
    (content : List Nat) (m a c : Nat)
    (hfile : fsLookup (p.child fn).comps fs = some (.file content m a c))
    (hsize : content.length < cfg.maxParseSize)
    (hseen : fileHash content ∈ hashKeys s) :
    addFileEntry cfg fs s p fn =
      updateFileEntry { s with hashCalls := s.hashCalls + 1 } (fileHash content) p fn none
        content.length m a c := by
  simp only [addFileEntry, hfile]
  rw [if_pos hsize,
    if_neg (checkMetaEntry_ne_zero_of_mem { s with hashCalls := s.hashCalls + 1 }
      (fileHash content) hseen)]

/-- C6.  Once a digest is present in the hashes table, observing another
file with the same content runs no type detection, no PE parsing and no
metadata ingestion: the detector and parser call counters and every
metadata table (and the paths table) are left exactly as they were; only
the files table (the path-level occurrence) may change. -/
theorem addFileEntry_seen_no_reingest (cfg : Config) (fs : FSNode) (s : State)
    (p : FPath) (fn : String) (content : List Nat) (m a c : Nat)
    (hfile : fsLookup (p.child fn).comps fs = some (.file content m a c))
    (hsize : content.length < cfg.maxParseSize)
    (hseen : fileHash content ∈ hashKeys s) :
    (stateOf (addFileEntry cfg fs s p fn)).detectCalls = s.detectCalls ∧
    (stateOf (addFileEntry cfg fs s p fn)).parseCalls = s.parseCalls ∧
    (stateOf (addFileEntry cfg fs s p fn)).hashes = s.hashes ∧
    (stateOf (addFileEntry cfg fs s p fn)).magics = s.magics ∧
    (stateOf (addFileEntry cfg fs s p fn)).peheaders = s.peheaders ∧
    (stateOf (addFileEntry cfg fs s p fn)).dlls = s.dlls ∧
    (stateOf (addFileEntry cfg fs s p fn)).functions = s.functions ∧
    (stateOf (addFileEntry cfg fs s p fn)).fileImportDlls = s.fileImportDlls ∧
    (stateOf (addFileEntry cfg fs s p fn)).fileExportDlls = s.fileExportDlls ∧
    (stateOf (addFileEntry cfg fs s p fn)).fileImportFunctions = s.fileImportFunctions ∧
    (stateOf (addFileEntry cfg fs s p fn)).fileExportFunctions = s.fileExportFunctions ∧
    (stateOf (addFileEntry cfg fs s p fn)).sections = s.sections ∧
    (stateOf (addFileEntry cfg fs s p fn)).versionInfoFields = s.versionInfoFields ∧
    (stateOf (addFileEntry cfg fs s p fn)).versionInfoValues = s.versionInfoValues ∧
    (stateOf (addFileEntry cfg fs s p fn)).fileVersionInfo = s.fileVersionInfo ∧
    (stateOf (addFileEntry cfg fs s p fn)).anomalies = s.anomalies ∧
    (stateOf (addFileEntry cfg fs s p fn)).paths = s.paths := by
  obtain ⟨fl, hst, _⟩ := updateFileEntry_none_seen { s with hashCalls := s.hashCalls + 1 }
    (fileHash content) p fn content.length m a c hseen
  rw [addFileEntry_seen_eq cfg fs s p fn content m a c hfile hsize hseen, hst]
  exact ⟨rfl, rfl, rfl, rfl, rfl, rfl, rfl, rfl, rfl, rfl, rfl, rfl, rfl, rfl, rfl, rfl, rfl⟩

/-- A store already holding the digest of content [7] under file_id 1. -/
def sSeen : State := { initState with hashes := [(1, [7])], nextFileId := 2 }

/-- C6 witness: observing /data/a.bin (content [7]) against a store that
has already seen that digest. -/
theorem addFileEntry_seen_no_reingest_witness :
    (stateOf (addFileEntry cfgNoMagic fsData sSeen rootData "a.bin")).detectCalls =
      sSeen.detectCalls ∧
    (stateOf (addFileEntry cfgNoMagic fsData sSeen rootData "a.bin")).parseCalls =
      sSeen.parseCalls ∧
    (stateOf (addFileEntry cfgNoMagic fsData sSeen rootData "a.bin")).hashes = sSeen.hashes ∧
    (stateOf (addFileEntry cfgNoMagic fsData sSeen rootData "a.bin")).magics = sSeen.magics ∧
    (stateOf (addFileEntry cfgNoMagic fsData sSeen rootData "a.bin")).peheaders =
      sSeen.peheaders ∧
    (stateOf (addFileEntry cfgNoMagic fsData sSeen rootData "a.bin")).dlls = sSeen.dlls ∧
    (stateOf (addFileEntry cfgNoMagic fsData sSeen rootData "a.bin")).functions =
      sSeen.functions ∧
    (stateOf (addFileEntry cfgNoMagic fsData sSeen rootData "a.bin")).fileImportDlls =
      sSeen.fileImportDlls ∧
    (stateOf (addFileEntry cfgNoMagic fsData sSeen rootData "a.bin")).fileExportDlls =
      sSeen.fileExportDlls ∧
    (stateOf (addFileEntry cfgNoMagic fsData sSeen rootData "a.bin")).fileImportFunctions =
      sSeen.fileImportFunctions ∧
    (stateOf (addFileEntry cfgNoMagic fsData sSeen rootData "a.bin")).fileExportFunctions =
      sSeen.fileExportFunctions ∧
    (stateOf (addFileEntry cfgNoMagic fsData sSeen rootData "a.bin")).sections =
      sSeen.sections ∧
    (stateOf (addFileEntry cfgNoMagic fsData sSeen rootData "a.bin")).versionInfoFields =
      sSeen.versionInfoFields ∧
    (stateOf (addFileEntry cfgNoMagic fsData sSeen rootData "a.bin")).versionInfoValues =
      sSeen.versionInfoValues ∧
    (stateOf (addFileEntry cfgNoMagic fsData sSeen rootData "a.bin")).fileVersionInfo =
      sSeen.fileVersionInfo ∧
    (stateOf (addFileEntry cfgNoMagic fsData sSeen rootData "a.bin")).anomalies =
      sSeen.anomalies ∧
    (stateOf (addFileEntry cfgNoMagic fsData sSeen rootData "a.bin")).paths = sSeen.paths :=
  addFileEntry_seen_no_reingest cfgNoMagic fsData sSeen rootData "a.bin" [7] 2 2 2
    rfl (by decide) (by decide)

/-- C7.  A file at or above max_parse_size is skipped entirely — the
store (hashes, files, every table, every ghost counter) is returned
unchanged, so no hash is computed and no ContentIdentity, FileOccurrence
or metadata row appears; a file strictly below the bound is hashed
(hashing counter incremented) and its digest registered as a
ContentIdentity. -/
theorem addFileEntry_size_bound (cfg : Config) (fs : FSNode) (s : State)
    (p : FPath) (fn : String) (content : List Nat) (m a c : Nat)
    (hfile : fsLookup (p.child fn).comps fs = some (.file content m a c)) :
    (cfg.maxParseSize ≤ content.length → addFileEntry cfg fs s p fn = .ok s) ∧
    (content.length < cfg.maxParseSize →
      (stateOf (addFileEntry cfg fs s p fn)).hashCalls = s.hashCalls + 1 ∧
      fileHash content ∈ hashKeys (stateOf (addFileEntry cfg fs s p fn))) := by
  constructor
  · intro hge
    simp only [addFileEntry, hfile]
    rw [if_neg (not_lt.2 hge)]
  · intro hlt
    simp only [addFileEntry, hfile]
    rw [if_pos hlt]
    by_cases hck : checkMetaEntry { s with hashCalls := s.hashCalls + 1 } (fileHash content) = 0
    · rw [if_pos hck]
      constructor
      · rw [updateFileEntry_hashCalls, insertMetaEntry_hashCalls]
        repeat' split
        all_goals rfl
      · exact updateFileEntry_mem_post _ _ _ _ _ _ _ _ _
    · rw [if_neg hck]
      exact ⟨updateFileEntry_hashCalls _ _ _ _ _ _ _ _ _,
        updateFileEntry_mem_post _ _ _ _ _ _ _ _ _⟩

/-- A filesystem with one file exactly at the 100-byte bound and one
below it. -/
def fsBig : FSNode :=
  .dir 0 0 0 [("big.bin", .file (List.replicate 100 1) 0 0 0), ("small.bin", .file [1] 0 0 0)]

/-- C7 witness: the 100-byte file is skipped outright, the 1-byte file is
hashed and registered. -/
theorem addFileEntry_size_bound_witness :
    addFileEntry cfgNoMagic fsBig initState ⟨true, []⟩ "big.bin" = .ok initState ∧
    ((stateOf (addFileEntry cfgNoMagic fsBig initState ⟨true, []⟩ "small.bin")).hashCalls =
        initState.hashCalls + 1 ∧
      fileHash [1] ∈ hashKeys (stateOf (addFileEntry cfgNoMagic fsBig initState
        ⟨true, []⟩ "small.bin"))) :=
  ⟨(addFileEntry_size_bound cfgNoMagic fsBig initState ⟨true, []⟩ "big.bin"
      (List.replicate 100 1) 0 0 0 rfl).1 (by decide),
   (addFileEntry_size_bound cfgNoMagic fsBig initState ⟨true, []⟩ "small.bin"
      [1] 0 0 0 rfl).2 (by decide)⟩

/-! The single-file branch of update and the missing-parent failure. -/

theorem dirname_child_basename (p : FPath) (hne : p.comps ≠ []) :
    p.dirname.child p.basename = p := by
  cases p with
  | mk ab cs =>
    simp only [FPath.dirname, FPath.child, FPath.basename]
    congr 1
    rw [List.getLastD_eq_getLast?, List.getLast?_eq_getLast cs hne]
    simp only [Option.getD_some]
    exact List.dropLast_append_getLast hne

theorem addFileEntry_no_path (cfg : Config) (fs : FSNode) (s : State)
    (p : FPath) (fn : String) (content : List Nat) (m a c : Nat)
    (hfile : fsLookup (p.child fn).comps fs = some (.file content m a c))
    (hsize : content.length < cfg.maxParseSize)
    (hnopath : selectPathId s p = none) :
    ∃ s1, addFileEntry cfg fs s p fn = .err .typeError s1 ∧ s1.files = s.files := by
  have key : ∀ t : State, t.paths = s.paths → t.files = s.files →
      ∀ ft, ∃ s1, updateFileEntry t (fileHash content) p fn ft content.length m a c =
        .err .typeError s1 ∧ s1.files = s.files := by
    intro t hp hf ft
    have hps : (getFileId t (fileHash content)).2.paths = s.paths := by
      rw [getFileId_paths, hp]
    have hnone2 : selectPathId (getFileId t (fileHash content)).2 p = none :=
      (selectPathId_congr _ s p hps).trans hnopath
    refine ⟨(getFileId t (fileHash content)).2,
      updateFileEntry_no_path _ _ _ _ _ _ _ _ _ hnone2, ?_⟩
    rw [getFileId_files, hf]
  simp only [addFileEntry, hfile]
  rw [if_pos hsize]
  by_cases hck : checkMetaEntry { s with hashCalls := s.hashCalls + 1 } (fileHash content) = 0
  · rw [if_pos hck]
    repeat' split
    all_goals exact key _ (by rw [insertMetaEntry_paths]) (by rw [insertMetaEntry_files]) _
  · rw [if_neg hck]
    exact key { s with hashCalls := s.hashCalls + 1 } rfl rfl none

/-- C9.  Calling update on a regular-file root whose parent directory has
no paths row fails with the unhandled TypeError of `result[0]` in
_get_path_id, and no files (FileOccurrence) row is recorded. -/
theorem update_file_root_unregistered_parent (cfg : Config) (fs : FSNode) (s : State)
    (root : FPath) (content : List Nat) (m a c : Nat)
    (habs : root.isAbs = true) (hne : root.comps ≠ [])
    (hfile : fsLookup root.comps fs = some (.file content m a c))
    (hsize : content.length < cfg.maxParseSize)
    (hnopath : selectPathId s root.dirname = none) :
    ∃ s1, update cfg fs s root = .err .typeError s1 ∧ s1.files = s.files := by
  have hjoin := dirname_child_basename root hne
  have hfile2 : fsLookup (root.dirname.child root.basename).comps fs =
      some (.file content m a c) := by rw [hjoin]; exact hfile
  obtain ⟨s1, hrun, hfiles⟩ := addFileEntry_no_path cfg fs s root.dirname root.basename
    content m a c hfile2 hsize hnopath
  refine ⟨s1, ?_, hfiles⟩
  have hobs : updateObsList fs root = [Obs.file root.dirname root.basename] := by
    unfold updateObsList
    rw [hfile]
  show (if root.isAbs then runObs cfg fs s (updateObsList fs root)
    else .err .metaFSError s) = .err .typeError s1
  rw [habs, hobs]
  show (match applyObs cfg fs s (Obs.file root.dirname root.basename) with
    | .ok s2 => runObs cfg fs s2 []
    | .err e s2 => .err e s2) = .err .typeError s1
  rw [show applyObs cfg fs s (Obs.file root.dirname root.basename) =
    addFileEntry cfg fs s root.dirname root.basename from rfl, hrun]

/-- C9 witness: update on the file root /small.bin against the empty
store, whose parent / has no paths row. -/
theorem update_file_root_unregistered_parent_witness :
    ∃ s1, update cfgNoMagic fsBig initState ⟨true, ["small.bin"]⟩ = .err .typeError s1 ∧
      s1.files = initState.files :=
  update_file_root_unregistered_parent cfgNoMagic fsBig initState ⟨true, ["small.bin"]⟩
    [1] 0 0 0 rfl (by decide) rfl (by decide) rfl

/-! Path-table lemmas for the REPLACE upsert. -/

theorem map_path_filter (l : List PathRow) (p : FPath) :
    (l.filter (fun r => ¬(r.path = p))).map (fun r => r.path) =
      (l.map (fun r => r.path)).filter (fun x => ¬(x = p)) := by
  induction l with
  | nil => rfl
  | cons r t ih =>
    simp only [List.filter_cons, List.map_cons, decide_not] at *
    by_cases hr : r.path = p
    · simp [hr, ih]
    · simp [hr, ih]

theorem pathKeys_updateDirEntry (s : State) (p : FPath) (m a c : Nat) :
    pathKeys (updateDirEntry s p m a c) =
      (pathKeys s).filter (fun x => ¬(x = p)) ++ [p] := by
  unfold pathKeys updateDirEntry
  rw [List.map_append, map_path_filter]
  rfl

theorem mem_pathKeys_updateDirEntry (s : State) (p : FPath) (m a c : Nat) (x : FPath)
    (hx : x ∈ pathKeys s) : x ∈ pathKeys (updateDirEntry s p m a c) := by
  rw [pathKeys_updateDirEntry]
  by_cases hxp : x = p
  · subst hxp
    exact List.mem_append_right _ (List.mem_singleton_self x)
  · exact List.mem_append_left _ (List.mem_filter.2 ⟨hx, by simp [hxp]⟩)

theorem filter_ne_append_perm (ks : List FPath) (p : FPath) (hn : ks.Nodup) (hm : p ∈ ks) :
    (ks.filter (fun x => ¬(x = p)) ++ [p]).Perm ks := by
  induction ks with
  | nil => cases hm
  | cons b t ih =>
    by_cases hb : b = p
    · subst hb
      have hbt : b ∉ t := (List.nodup_cons.1 hn).1
      have hft : t.filter (fun x => ¬(x = b)) = t := by
        refine List.filter_eq_self.2 ?_
        intro x hx
        have hxb : ¬(x = b) := by
          intro h
          rw [h] at hx
          exact hbt hx
        simpa using hxb
      have hstep : (b :: t).filter (fun x => ¬(x = b)) = t := by
        rw [List.filter_cons]
        simp only [show (decide ¬(b = b)) = false by simp, Bool.false_eq_true, if_false]
        exact hft
      rw [hstep]
      exact List.perm_append_singleton b t
    · have hpt : p ∈ t := by
        rcases List.mem_cons.1 hm with h | h
        · exact absurd h.symm hb
        · exact h
      have hstep : (b :: t).filter (fun x => ¬(x = p)) =
          b :: t.filter (fun x => ¬(x = p)) := by
        rw [List.filter_cons]
        simp [hb]
      rw [hstep, List.cons_append]
      exact List.Perm.cons b (ih (List.nodup_cons.1 hn).2 hpt)

theorem filter_ne_append_nodup (ks : List FPath) (p : FPath) (hn : ks.Nodup) :
    ((ks.filter (fun x => ¬(x = p)) ++ [p])).Nodup := by
  refine List.Nodup.append (hn.filter _) (List.nodup_singleton p) ?_
  intro x hx1 hx2
  have hne := (List.mem_filter.1 hx1).2
  rw [List.mem_singleton] at hx2
  subst hx2
  simp at hne

theorem addFileEntry_paths (cfg : Config) (fs : FSNode) (s : State) (p : FPath) (fn : String) :
    (stateOf (addFileEntry cfg fs s p fn)).paths = s.paths := by
  simp only [addFileEntry]
  split
  · split
    · split
      · rw [updateFileEntry_paths, insertMetaEntry_paths]
        repeat' split
        all_goals rfl
      · rw [updateFileEntry_paths]
    · rfl
  · rfl

theorem addFileEntry_hash_mono (cfg : Config) (fs : FSNode) (s : State) (p : FPath)
    (fn : String) (x : List Nat) (hm : x ∈ hashKeys s) :
    x ∈ hashKeys (stateOf (addFileEntry cfg fs s p fn)) := by
  simp only [addFileEntry]
  split
  · split
    · split
      · refine updateFileEntry_hash_mono _ _ _ _ _ _ _ _ _ _ ?_
        refine insertMetaEntry_hash_mono _ _ _ _ ?_
        repeat' split
        all_goals exact hm
      · exact updateFileEntry_hash_mono _ _ _ _ _ _ _ _ _ _ hm
    · exact hm
  · exact hm

/-! Invariants carried across a run of observations. -/

/-- What a later run may assume about an observation already processed by
an earlier successful run: a directory observation has its path row
present and its directory still statable; a file observation below the
parse bound has its digest registered and its directory row present. -/
def obsPres (cfg : Config) (fs : FSNode) (s : State) : Obs → Prop
  | .dir p => p ∈ pathKeys s ∧ (fsLookup p.comps fs).isSome
  | .file p fn =>
    ∀ content m a c, fsLookup (p.child fn).comps fs = some (.file content m a c) →
      content.length < cfg.maxParseSize →
      fileHash content ∈ hashKeys s ∧ p ∈ pathKeys s

theorem obsPres_mono (cfg : Config) (fs : FSNode) (s t : State) (o : Obs)
    (hpm : ∀ x ∈ pathKeys s, x ∈ pathKeys t)
    (hhm : ∀ x ∈ hashKeys s, x ∈ hashKeys t)
    (hp : obsPres cfg fs s o) : obsPres cfg fs t o := by
  cases o with
  | dir p => exact ⟨hpm p hp.1, hp.2⟩
  | file p fn =>
    intro content m a c hfl hsz
    obtain ⟨h1, h2⟩ := hp content m a c hfl hsz
    exact ⟨hhm _ h1, hpm _ h2⟩

theorem applyObs_mono (cfg : Config) (fs : FSNode) (s s1 : State) (o : Obs)
    (hap : applyObs cfg fs s o = .ok s1) :
    (∀ x ∈ pathKeys s, x ∈ pathKeys s1) ∧ (∀ x ∈ hashKeys s, x ∈ hashKeys s1) := by
  cases o with
  | dir p =>
    simp only [applyObs, addDirEntry] at hap
    cases hl : fsLookup p.comps fs with
    | none =>
      rw [hl] at hap
      cases hap
    | some n =>
      rw [hl] at hap
      have hs1 : updateDirEntry s p (statTimes n).1 (statTimes n).2.1 (statTimes n).2.2 = s1 :=
        congrArg stateOf hap
      constructor
      · intro x hx
        rw [← hs1]
        exact mem_pathKeys_updateDirEntry s p _ _ _ x hx
      · intro x hx
        rw [← hs1]
        exact hx
  | file p fn =>
    have hs1 : stateOf (addFileEntry cfg fs s p fn) = s1 := by
      show stateOf (applyObs cfg fs s (Obs.file p fn)) = s1
      rw [hap]
      rfl
    constructor
    · intro x hx
      have hpaths : s1.paths = s.paths := by
        rw [← hs1]
        exact addFileEntry_paths cfg fs s p fn
      show x ∈ s1.paths.map (fun r => r.path)
      rw [hpaths]
      exact hx
    · intro x hx
      rw [← hs1]
      exact addFileEntry_hash_mono cfg fs s p fn x hx

theorem updateFileEntry_ok_post (t : State) (h : List Nat) (p : FPath) (fn : String)
    (ft : Option String) (sz m a c : Nat) (s1 : State)
    (hok : updateFileEntry t h p fn ft sz m a c = .ok s1) :
    h ∈ hashKeys s1 ∧ p ∈ pathKeys s1 := by
  have h1 : stateOf (updateFileEntry t h p fn ft sz m a c) = s1 := by
    rw [hok]
    rfl
  constructor
  · rw [← h1]
    exact updateFileEntry_mem_post t h p fn ft sz m a c
  · simp only [updateFileEntry] at hok
    cases hsel : selectPathId (getFileId t h).2 p with
    | none =>
      rw [hsel] at hok
      cases hok
    | some pid =>
      have hmem := mem_pathKeys_of_selectPathId_some _ p pid hsel
      have hp2 : s1.paths = t.paths := by
        rw [← h1]
        exact updateFileEntry_paths t h p fn ft sz m a c
      show p ∈ s1.paths.map (fun r => r.path)
      rw [hp2]
      show p ∈ pathKeys t
      have := getFileId_paths t h
      unfold pathKeys at *
      rw [this] at hmem
      exact hmem

theorem applyObs_post (cfg : Config) (fs : FSNode) (s s1 : State) (o : Obs)
    (hap : applyObs cfg fs s o = .ok s1) : obsPres cfg fs s1 o := by
  cases o with
  | dir p =>
    simp only [applyObs, addDirEntry] at hap
    cases hl : fsLookup p.comps fs with
    | none =>
      rw [hl] at hap
      cases hap
    | some n =>
      rw [hl] at hap
      have hs1 : updateDirEntry s p (statTimes n).1 (statTimes n).2.1 (statTimes n).2.2 = s1 :=
        congrArg stateOf hap
      constructor
      · rw [← hs1, pathKeys_updateDirEntry]
        exact List.mem_append_right _ (List.mem_singleton_self p)
      · rw [hl]
        rfl
  | file p fn =>
    intro content m a c hfl hsz
    have hap2 : addFileEntry cfg fs s p fn = .ok s1 := hap
    simp only [addFileEntry, hfl] at hap2
    rw [if_pos hsz] at hap2
    by_cases hck :
        checkMetaEntry { s with hashCalls := s.hashCalls + 1 } (fileHash content) = 0
    · rw [if_pos hck] at hap2
      have hpost := updateFileEntry_ok_post _ _ _ _ _ _ _ _ _ _ hap2
      exact hpost
    · rw [if_neg hck] at hap2
      have hpost := updateFileEntry_ok_post _ _ _ _ _ _ _ _ _ _ hap2
      exact hpost

theorem applyObs_nodup (cfg : Config) (fs : FSNode) (s : State) (o : Obs)
    (hn : (pathKeys s).Nodup) :
    (pathKeys (stateOf (applyObs cfg fs s o))).Nodup := by
  cases o with
  | dir p =>
    show (pathKeys (stateOf (addDirEntry fs s p))).Nodup
    unfold addDirEntry
    cases hl : fsLookup p.comps fs with
    | none => exact hn
    | some n =>
      show (pathKeys (updateDirEntry s p _ _ _)).Nodup
      rw [pathKeys_updateDirEntry]
      exact filter_ne_append_nodup (pathKeys s) p hn
  | file p fn =>
    show (pathKeys (stateOf (addFileEntry cfg fs s p fn))).Nodup
    have := addFileEntry_paths cfg fs s p fn
    unfold pathKeys at *
    rw [this]
    exact hn

/-! A second pass over already-recorded observations. -/

theorem applyObs_second (cfg : Config) (fs : FSNode) (s : State) (o : Obs)
    (hn : (pathKeys s).Nodup) (hp : obsPres cfg fs s o) :
    applyObs cfg fs s o = .ok (stateOf (applyObs cfg fs s o)) ∧
      (stateOf (applyObs cfg fs s o)).magics = s.magics ∧
      (stateOf (applyObs cfg fs s o)).dlls = s.dlls ∧
      (stateOf (applyObs cfg fs s o)).functions = s.functions ∧
      (stateOf (applyObs cfg fs s o)).versionInfoFields = s.versionInfoFields ∧
      (stateOf (applyObs cfg fs s o)).versionInfoValues = s.versionInfoValues ∧
      (stateOf (applyObs cfg fs s o)).hashes = s.hashes ∧
      fileKeys (stateOf (applyObs cfg fs s o)) = fileKeys s ∧
      (pathKeys (stateOf (applyObs cfg fs s o))).Perm (pathKeys s) := by
  cases o with
  | dir p =>
    obtain ⟨hpmem, hsome⟩ := hp
    obtain ⟨n, hn2⟩ := Option.isSome_iff_exists.1 hsome
    have heq : applyObs cfg fs s (Obs.dir p) =
        .ok (updateDirEntry s p (statTimes n).1 (statTimes n).2.1 (statTimes n).2.2) := by
      show addDirEntry fs s p = _
      unfold addDirEntry
      rw [hn2]
    rw [heq]
    refine ⟨rfl, rfl, rfl, rfl, rfl, rfl, rfl, rfl, ?_⟩
    show (pathKeys (updateDirEntry s p _ _ _)).Perm (pathKeys s)
    rw [pathKeys_updateDirEntry]
    exact filter_ne_append_perm (pathKeys s) p hn hpmem
  | file p fn =>
    cases hfl : fsLookup (p.child fn).comps fs with
    | none =>
      have heq : applyObs cfg fs s (Obs.file p fn) = .ok s := by
        show addFileEntry cfg fs s p fn = .ok s
        simp only [addFileEntry, hfl]
      rw [heq]
      exact ⟨rfl, rfl, rfl, rfl, rfl, rfl, rfl, rfl, List.Perm.refl _⟩
    | some n =>
      cases n with
      | dir dm da dc es =>
        have heq : applyObs cfg fs s (Obs.file p fn) = .ok s := by
          show addFileEntry cfg fs s p fn = .ok s
          simp only [addFileEntry, hfl]
        rw [heq]
        exact ⟨rfl, rfl, rfl, rfl, rfl, rfl, rfl, rfl, List.Perm.refl _⟩
      | file content m a c =>
        by_cases hsz : content.length < cfg.maxParseSize
        · obtain ⟨hhash, hpmem⟩ := hp content m a c hfl hsz
          obtain ⟨fl, hok, hkeys⟩ := updateFileEntry_none_seen_ok
            { s with hashCalls := s.hashCalls + 1 } (fileHash content) p fn
            content.length m a c hhash hpmem
          have heq : applyObs cfg fs s (Obs.file p fn) =
              .ok { { s with hashCalls := s.hashCalls + 1 } with files := fl } := by
            show addFileEntry cfg fs s p fn = _
            rw [addFileEntry_seen_eq cfg fs s p fn content m a c hfl hsz hhash]
            exact hok
          rw [heq]
          exact ⟨rfl, rfl, rfl, rfl, rfl, rfl, rfl, hkeys, List.Perm.refl _⟩
        · have heq : applyObs cfg fs s (Obs.file p fn) = .ok s := by
            show addFileEntry cfg fs s p fn = .ok s
            simp only [addFileEntry, hfl]
            rw [if_neg hsz]
          rw [heq]
          exact ⟨rfl, rfl, rfl, rfl, rfl, rfl, rfl, rfl, List.Perm.refl _⟩

theorem runObs_mono (cfg : Config) (fs : FSNode) (l : List Obs) :
    ∀ s s2 : State, runObs cfg fs s l = .ok s2 →
      (∀ x ∈ pathKeys s, x ∈ pathKeys s2) ∧ (∀ x ∈ hashKeys s, x ∈ hashKeys s2) := by
  induction l with
  | nil =>
    intro s s2 hrun
    cases hrun
    exact ⟨fun _ hx => hx, fun _ hx => hx⟩
  | cons o rest ih =>
    intro s s2 hrun
    simp only [runObs] at hrun
    cases hap : applyObs cfg fs s o with
    | err e s1 =>
      rw [hap] at hrun
      cases hrun
    | ok s1 =>
      rw [hap] at hrun
      obtain ⟨hp1, hh1⟩ := applyObs_mono cfg fs s s1 o hap
      obtain ⟨hp2, hh2⟩ := ih s1 s2 hrun
      exact ⟨fun x hx => hp2 x (hp1 x hx), fun x hx => hh2 x (hh1 x hx)⟩

theorem runObs_post (cfg : Config) (fs : FSNode) (l : List Obs) :
    ∀ s s2 : State, runObs cfg fs s l = .ok s2 → ∀ o ∈ l, obsPres cfg fs s2 o := by
  induction l with
  | nil =>
    intro s s2 _ o ho
    exact absurd ho (List.not_mem_nil o)
  | cons o rest ih =>
    intro s s2 hrun o2 ho2
    simp only [runObs] at hrun
    cases hap : applyObs cfg fs s o with
    | err e s1 =>
      rw [hap] at hrun
      cases hrun
    | ok s1 =>
      rw [hap] at hrun
      rcases List.mem_cons.1 ho2 with heq | hmem
      · subst heq
        obtain ⟨hpm, hhm⟩ := runObs_mono cfg fs rest s1 s2 hrun
        exact obsPres_mono cfg fs s1 s2 o2 hpm hhm (applyObs_post cfg fs s s1 o2 hap)
      · exact ih s1 s2 hrun o2 hmem

theorem runObs_nodup (cfg : Config) (fs : FSNode) (l : List Obs) :
    ∀ s s2 : State, runObs cfg fs s l = .ok s2 →
      (pathKeys s).Nodup → (pathKeys s2).Nodup := by
  induction l with
  | nil =>
    intro s s2 hrun hn
    cases hrun
    exact hn
  | cons o rest ih =>
    intro s s2 hrun hn
    simp only [runObs] at hrun
    cases hap : applyObs cfg fs s o with
    | err e s1 =>
      rw [hap] at hrun
      cases hrun
    | ok s1 =>
      rw [hap] at hrun
      have h1 := applyObs_nodup cfg fs s o hn
      rw [hap] at h1
      exact ih s1 s2 hrun h1

theorem runObs_second (cfg : Config) (fs : FSNode) (l : List Obs) :
    ∀ s : State, (pathKeys s).Nodup → (∀ o ∈ l, obsPres cfg fs s o) →
      ∃ s2, runObs cfg fs s l = .ok s2 ∧
        s2.magics = s.magics ∧ s2.dlls = s.dlls ∧ s2.functions = s.functions ∧
        s2.versionInfoFields = s.versionInfoFields ∧
        s2.versionInfoValues = s.versionInfoValues ∧
        s2.hashes = s.hashes ∧ fileKeys s2 = fileKeys s ∧
        (pathKeys s2).Perm (pathKeys s) := by
  induction l with
  | nil =>
    intro s _ _
    exact ⟨s, rfl, rfl, rfl, rfl, rfl, rfl, rfl, rfl, List.Perm.refl _⟩
  | cons o rest ih =>
    intro s hn hp
    have hsec := applyObs_second cfg fs s o hn (hp o (List.mem_cons_self o rest))
    set s1 := stateOf (applyObs cfg fs s o) with hs1def
    obtain ⟨hap, hm1, hd1, hf1, hvf1, hvv1, hh1, hfk1, hperm1⟩ := hsec
    have hn1 : (pathKeys s1).Nodup := hperm1.symm.nodup hn
    have hp1 : ∀ o2 ∈ rest, obsPres cfg fs s1 o2 := by
      intro o2 ho2
      refine obsPres_mono cfg fs s s1 o2 ?_ ?_ (hp o2 (List.mem_cons_of_mem o ho2))
      · intro x hx
        exact hperm1.mem_iff.2 hx
      · intro x hx
        show x ∈ s1.hashes.map (fun r => r.2)
        rw [hh1]
        exact hx
    obtain ⟨s2, hrun, hm2, hd2, hf2, hvf2, hvv2, hh2, hfk2, hperm2⟩ := ih s1 hn1 hp1
    refine ⟨s2, ?_, hm2.trans hm1, hd2.trans hd1, hf2.trans hf1, hvf2.trans hvf1,
      hvv2.trans hvv1, hh2.trans hh1, hfk2.trans hfk1, hperm2.trans hperm1⟩
    simp only [runObs]
    rw [hap]
    exact hrun

/-- C5.  If a first update over an unchanged tree succeeded from the
freshly initialized store, a second identical update also succeeds and
adds no row to any dedup table (magics, dlls, functions,
version_info_fields, version_info_values), leaves the (file_id, path_id)
keys of the files table exactly as they were (so no FileOccurrence row
is duplicated), and permutes the paths table keys (each REPLACE renews a
row in place), keeping them duplicate-free. -/
theorem update_twice_no_new_rows (cfg : Config) (fs : FSNode) (root : FPath) (s1 : State)
    (h1 : update cfg fs initState root = .ok s1) :
    ∃ s2, update cfg fs s1 root = .ok s2 ∧
      s2.magics = s1.magics ∧ s2.dlls = s1.dlls ∧ s2.functions = s1.functions ∧
      s2.versionInfoFields = s1.versionInfoFields ∧
      s2.versionInfoValues = s1.versionInfoValues ∧
      fileKeys s2 = fileKeys s1 ∧ (pathKeys s2).Perm (pathKeys s1) ∧
      (pathKeys s2).Nodup := by
  unfold update at h1 ⊢
  by_cases habs : root.isAbs = true
  · rw [if_pos habs] at h1 ⊢
    have hn1 := runObs_nodup cfg fs (updateObsList fs root) initState s1 h1 List.nodup_nil
    have hpost := runObs_post cfg fs (updateObsList fs root) initState s1 h1
    obtain ⟨s2, hrun, hm, hd, hf, hvf, hvv, _, hfk, hperm⟩ :=
      runObs_second cfg fs (updateObsList fs root) s1 hn1 hpost
    exact ⟨s2, hrun, hm, hd, hf, hvf, hvv, hfk, hperm, hperm.symm.nodup hn1⟩
  · rw [if_neg habs] at h1
    cases h1

/-- The store produced by the first update of the C5 witness scenario. -/
def s1W : State := stateOf (update cfgNoMagic fsData initState rootData)

/-- C5 witness: a concrete first run over /data, then the second run. -/
theorem update_twice_no_new_rows_witness :
    ∃ s2, update cfgNoMagic fsData s1W rootData = .ok s2 ∧
      s2.magics = s1W.magics ∧ s2.dlls = s1W.dlls ∧ s2.functions = s1W.functions ∧
      s2.versionInfoFields = s1W.versionInfoFields ∧
      s2.versionInfoValues = s1W.versionInfoValues ∧
      fileKeys s2 = fileKeys s1W ∧ (pathKeys s2).Perm (pathKeys s1W) ∧
      (pathKeys s2).Nodup :=
  update_twice_no_new_rows cfgNoMagic fsData rootData s1W (by decide)

/-! Concrete runs exhibiting the divergences of update. -/

/-- C1.  Over /data containing /data/a.bin and /data/sub/b.bin with
byte-identical content, one update produces exactly one ContentIdentity
row but only ONE FileOccurrence row (path_id 3 is /data): for the second
path the content is already known, so file_type stays None and
_update_file_entry takes the timestamp-only UPDATE branch, which matches
no (file_id, path_id) row and inserts nothing — not the two occurrence
rows the dedup contract promises. -/
theorem update_dup_content_one_occurrence :
    hashKeys (stateOf (update cfgNoMagic fsData initState rootData)) = [[7]] ∧
    (stateOf (update cfgNoMagic fsData initState rootData)).files.map
      (fun r => (r.path_id, r.filename)) = [(3, "a.bin")] := by
  decide

/-- C2.  update on the directory root /data first replaces the root by
os.path.dirname(root) = / and registers and walks that, so the store
ends with four PathEntry rows — /, /data, /data/sub and /other, the last
lying outside the /data subtree — instead of exactly the two rows /data
and /data/sub the walk contract promises. -/
theorem update_walks_dirname_of_root :
    pathKeys (stateOf (update cfgNoMagic fsData initState rootData)) =
      [⟨true, []⟩, ⟨true, ["data"]⟩, ⟨true, ["data", "sub"]⟩, ⟨true, ["other"]⟩] := by
  decide
